import Mathlib

/-! Formal model of the NiftiDicom2gif frame-derivation and rendering core.

The definitions below are shallow embeddings of the client-side preview
pipeline of the repository, chiefly
`src/frontend/src/components/InteractivePreview.tsx` (colormap tables,
slice-range filtering, slice reversal, the canvas transform in `drawFrame`,
the animation tick) and `src/frontend/src/components/ConversionOptions.tsx`
(`updateSliceRange`).  JavaScript numbers are modelled by `ℕ`/`ℤ`/`ℚ` with
the conversions noted at each definition.  The server-side final encoder is
not part of `src/`; where a claim needs it, it is modelled from the
specification and marked as such. -/

namespace N2G

/-- The colormap names supported by the UI: `type Colormap` in
`ConversionOptions.tsx` (`gray | viridis | plasma | hot | bone | jet`).
The string keys of the `COLORMAPS` record in `InteractivePreview.tsx`
range over exactly these names. -/
inductive Colormap where
  | gray | viridis | plasma | hot | bone | jet
deriving DecidableEq

/-- An exact fraction with (by construction) positive denominator, used to
evaluate the LUT generator polynomials of `InteractivePreview.tsx`.  The
source evaluates decimal coefficients in IEEE doubles; here the same
formulas are evaluated in exact rational arithmetic (no normalisation, so
every operation is plain integer arithmetic and reduces in the kernel).
Every numeric fact proved about the tables below holds with a margin that
is orders of magnitude larger than double rounding error. -/
structure Frac where
  num : ℤ
  den : ℤ
deriving DecidableEq

instance : Add Frac := ⟨fun a b => ⟨a.num * b.den + b.num * a.den, a.den * b.den⟩⟩

instance : Sub Frac := ⟨fun a b => ⟨a.num * b.den - b.num * a.den, a.den * b.den⟩⟩

instance : Mul Frac := ⟨fun a b => ⟨a.num * b.num, a.den * b.den⟩⟩

/-- Division, used only with positive literal divisors (`8/9`, `5/12`). -/
instance : Div Frac := ⟨fun a b => ⟨a.num * b.den, a.den * b.num⟩⟩

instance : LT Frac := ⟨fun a b => a.num * b.den < b.num * a.den⟩

instance : LE Frac := ⟨fun a b => a.num * b.den ≤ b.num * a.den⟩

instance (a b : Frac) : Decidable (a < b) :=
  inferInstanceAs (Decidable (a.num * b.den < b.num * a.den))

instance (a b : Frac) : Decidable (a ≤ b) :=
  inferInstanceAs (Decidable (a.num * b.den ≤ b.num * a.den))

/-- `Math.min` on exact fractions. -/
instance : Min Frac := ⟨fun a b => if a ≤ b then a else b⟩

/-- `Math.max` on exact fractions. -/
instance : Max Frac := ⟨fun a b => if a ≤ b then b else a⟩

instance (n : ℕ) : OfNat Frac n := ⟨⟨n, 1⟩⟩

/-- Decimal literals such as `0.267` denote the exact fraction `267/1000`
(the decimal written in the source text). -/
instance : OfScientific Frac :=
  ⟨fun m s e => if s then ⟨m, (10 : ℤ) ^ e⟩ else ⟨(m : ℤ) * (10 : ℤ) ^ e, 1⟩⟩

/-- JavaScript `Math.round` on an exact fraction with positive denominator:
round half toward plus infinity, `⌊x + 1/2⌋`. -/
def jsRound (x : Frac) : ℤ := (2 * x.num + x.den) / (2 * x.den)

/-- `generateViridisLUT` from `InteractivePreview.tsx` (lines 14-25);
`t = i / 255`. -/
def generateViridisLUT : List (List ℤ) :=
  (List.range 256).map fun (i : ℕ) =>
    let t : Frac := ⟨(i : ℤ), 255⟩
    [jsRound ((0.267 + t * (0.329 + t * (1.260 - t * 1.856))) * 255),
     jsRound ((0.004 + t * (0.873 + t * (0.688 - t * 0.565))) * 255),
     jsRound ((0.329 + t * (1.579 - t * (2.931 - t * 1.023))) * 255)]

/-- `generatePlasmaLUT` from `InteractivePreview.tsx` (lines 27-38). -/
def generatePlasmaLUT : List (List ℤ) :=
  (List.range 256).map fun (i : ℕ) =>
    let t : Frac := ⟨(i : ℤ), 255⟩
    [jsRound ((0.050 + t * (2.735 - t * 1.785)) * 255),
     jsRound ((0.030 + t * (0.214 + t * (2.120 - t * 1.364))) * 255),
     jsRound ((0.528 + t * (1.088 - t * (2.952 - t * 1.336))) * 255)]

/-- `generateHotLUT` from `InteractivePreview.tsx` (lines 40-51). -/
def generateHotLUT : List (List ℤ) :=
  (List.range 256).map fun (i : ℕ) =>
    let t : Frac := ⟨(i : ℤ), 255⟩
    [jsRound (min 1 (t * 3) * 255),
     jsRound (min 1 (max 0 (t * 3 - 1)) * 255),
     jsRound (min 1 (max 0 (t * 3 - 2)) * 255)]

/-- `generateBoneLUT` from `InteractivePreview.tsx` (lines 53-64). -/
def generateBoneLUT : List (List ℤ) :=
  (List.range 256).map fun (i : ℕ) =>
    let t : Frac := ⟨(i : ℤ), 255⟩
    [jsRound ((if t < 0.75 then t * 8/9 else (t - 0.75) * 2/9 + 2/3) * 255),
     jsRound ((if t < 0.375 then t * 8/9
               else if t < 0.75 then (t - 0.375) * 2/9 + 1/3
               else (t - 0.75) + 2/3) * 255),
     jsRound ((if t < 0.375 then t * 10/9 else (t - 0.375) * 8/9 + 5/12) * 255)]

/-- `generateJetLUT` from `InteractivePreview.tsx` (lines 66-85). -/
def generateJetLUT : List (List ℤ) :=
  (List.range 256).map fun (i : ℕ) =>
    let t : Frac := ⟨(i : ℤ), 255⟩
    let rgb : Frac × Frac × Frac :=
      if t < 0.125 then (0, 0, 0.5 + t * 4)
      else if t < 0.375 then (0, (t - 0.125) * 4, 1)
      else if t < 0.625 then ((t - 0.375) * 4, 1, 1 - (t - 0.375) * 4)
      else if t < 0.875 then (1, 1 - (t - 0.625) * 4, 0)
      else (1 - (t - 0.875) * 4, 0, 0)
    [jsRound (rgb.1 * 255), jsRound (rgb.2.1 * 255), jsRound (rgb.2.2 * 255)]

/-- The `COLORMAPS` record from `InteractivePreview.tsx` (lines 4-11):
`gray` maps to the empty table (special case, no LUT needed). -/
def COLORMAPS : Colormap → List (List ℤ)
  | .gray => []
  | .viridis => generateViridisLUT
  | .plasma => generatePlasmaLUT
  | .hot => generateHotLUT
  | .bone => generateBoneLUT
  | .jet => generateJetLUT

/-- One RGBA pixel of a canvas `ImageData` buffer.  The buffer is a
`Uint8ClampedArray`; values stored into it are clamped to `0..255`. -/
structure RGBA where
  r : ℕ
  g : ℕ
  b : ℕ
  a : ℕ
deriving DecidableEq

/-- Assignment into a `Uint8ClampedArray`: clamp an integer to `0..255`. -/
def clamp8 (z : ℤ) : ℕ := (min (max z 0) 255).toNat

/-- The lookup `const [r, g, b] = lut[gray] || [gray, gray, gray]` in
`applyColormap`: out-of-range indices fall back to the gray triple.  All
tables produced by the generators above have three components per entry. -/
def lutEntry (lut : List (List ℤ)) (gray : ℕ) : ℤ × ℤ × ℤ :=
  match lut.get? gray with
  | some (r :: g :: b :: _) => (r, g, b)
  | _ => ((gray : ℤ), (gray : ℤ), (gray : ℤ))

/-- `applyColormap` from `InteractivePreview.tsx` (lines 202-221), acting on
the flattened `ImageData` pixel list: `gray` returns with no transformation;
a missing or empty LUT also returns unchanged; otherwise each pixel's R
channel indexes the LUT and the triple is stored back (clamped by the
`Uint8ClampedArray`), leaving alpha unchanged. -/
def applyColormap (colormap : Colormap) (data : List RGBA) : List RGBA :=
  if colormap = .gray then data
  else
    let lut := COLORMAPS colormap
    if lut.length = 0 then data
    else data.map fun p =>
      let c := lutEntry lut p.r
      ⟨clamp8 c.1, clamp8 c.2.1, clamp8 c.2.2, p.a⟩

/-- The loop body of `filteredIndices` (`InteractivePreview.tsx` lines
140-143): `for (let i = startIdx; i < endIdx && i < total; i++) push i`.
The first argument is fuel bounding the number of iterations; the loop
increments `i` and stops before `total`, so `total` steps always suffice. -/
def collectIndices : ℕ → ℕ → ℕ → ℕ → List ℕ
  | 0, _, _, _ => []
  | fuel + 1, endIdx, total, i =>
    if i < endIdx ∧ i < total then i :: collectIndices fuel endIdx total (i + 1)
    else []

/-- `filteredIndices` from `InteractivePreview.tsx` (lines 136-145):
`startIdx = floor(total * sliceStart / 100)`,
`endIdx = max(startIdx + 1, floor(total * sliceEnd / 100))`, then collect
`i` from `startIdx` while `i < endIdx && i < total`.  Percentages are the
integer slider values; `Math.floor` on a nonnegative quotient is `ℕ`
division. -/
def filteredIndices (total sliceStart sliceEnd : ℕ) : List ℕ :=
  let startIdx := total * sliceStart / 100
  let endIdx := max (startIdx + 1) (total * sliceEnd / 100)
  collectIndices total endIdx total startIdx

/-- JavaScript array read `l[i]` at a possibly negative index: `undefined`
outside `0 ≤ i < l.length`. -/
def listAt (l : List ℕ) (i : ℤ) : Option ℕ :=
  if 0 ≤ i then l.get? i.toNat else none

/-- `getEffectiveIndex` from `InteractivePreview.tsx` (lines 157-163):
first apply reversal (`count - 1 - displayIdx`) when `reverseSlices` is
set, then index `filteredIndices` at the value clamped to
`[0, count - 1]`, with `?? 0` supplying `0` when the read is undefined
(only possible for an empty list, where the clamp yields `-1`). -/
def getEffectiveIndex (reverseSlices : Bool) (filtered : List ℕ)
    (displayIdx : ℤ) : ℕ :=
  let count : ℤ := filtered.length
  let idx : ℤ := if reverseSlices then count - 1 - displayIdx else displayIdx
  (listAt filtered (min (max 0 idx) (count - 1))).getD 0

/-- The mutable state read and written by one tick of the preview animation
loop: the local slice counter and `lastFrameTimeRef.current`.  Timestamps
are `performance.now()` milliseconds, modelled as exact rationals. -/
structure AnimState where
  localSlice : ℕ
  lastFrameTime : ℚ
deriving DecidableEq

/-- One tick of `animate` from `InteractivePreview.tsx` (lines 288-296):
if `timestamp - lastFrameTime >= frameDuration` (with
`frameDuration = 1000 / fps`) then advance `localSlice` by one modulo
`filteredFrameCount` and record the timestamp; otherwise leave the state
unchanged. -/
def animate (fps filteredFrameCount : ℕ) (st : AnimState)
    (timestamp : ℚ) : AnimState :=
  let frameDuration : ℚ := 1000 / fps
  if timestamp - st.lastFrameTime ≥ frameDuration then
    { localSlice := (st.localSlice + 1) % filteredFrameCount
      lastFrameTime := timestamp }
  else st

/-- `updateSliceRange` from `ConversionOptions.tsx` (lines 36-45 and the
identical copy at 302-311): when the pair collapses below the minimum gap
of 5, push the end up (when the start slider was the one held fixed, i.e.
`start === settings.sliceStart`) or pull the start down, then store the
pair.  Returns the stored `(sliceStart, sliceEnd)`. -/
def updateSliceRange (prevSliceStart : ℤ) (start endVal : ℤ) : ℤ × ℤ :=
  if start ≥ endVal - 5 then
    if start = prevSliceStart then (start, min 100 (start + 5))
    else (max 0 (endVal - 5), endVal)
  else (start, endVal)

/-- A grayscale raster: width, height and a pixel function.  Pixels outside
the `x < w, y < h` domain are irrelevant; image comparisons use `Img.Eqv`
below, which only inspects the domain. -/
structure Img where
  w : ℕ
  h : ℕ
  pix : ℕ → ℕ → ℕ

/-- The all-zero (cleared-canvas) image. -/
def emptyImg : Img := ⟨0, 0, fun _ _ => 0⟩

/-- Two grayscale images agree: same dimensions and the same pixel values
over the whole domain. -/
def Img.Eqv (a b : Img) : Prop :=
  a.w = b.w ∧ a.h = b.h ∧ ∀ x < a.w, ∀ y < a.h, a.pix x y = b.pix x y

instance (a b : Img) : Decidable (Img.Eqv a b) :=
  inferInstanceAs (Decidable (_ ∧ _ ∧ ∀ x < a.w, ∀ y < a.h, a.pix x y = b.pix x y))

/-- Mirror an image left-right (the spec's flip-horizontal frame
operation). -/
def flipH (img : Img) : Img :=
  ⟨img.w, img.h, fun x y =>
    if x < img.w ∧ y < img.h then img.pix (img.w - 1 - x) y else 0⟩

/-- Mirror an image top-bottom (the spec's flip-vertical frame
operation). -/
def flipV (img : Img) : Img :=
  ⟨img.w, img.h, fun x y =>
    if x < img.w ∧ y < img.h then img.pix x (img.h - 1 - y) else 0⟩

/-- Rotate an image by 90 degrees clockwise (visually, with the y axis
pointing down): the left edge becomes the top edge. -/
def rotateCW (img : Img) : Img :=
  ⟨img.h, img.w, fun x y =>
    if x < img.h ∧ y < img.w then img.pix y (img.h - 1 - x) else 0⟩

/-- Rotate an image by 90 degrees counterclockwise: the right edge becomes
the top edge. -/
def rotateCCW (img : Img) : Img :=
  ⟨img.h, img.w, fun x y =>
    if x < img.h ∧ y < img.w then img.pix (img.w - 1 - y) x else 0⟩

/-- Apply `flipH` when the flag is set. -/
def condFlipH (flag : Bool) (img : Img) : Img := if flag then flipH img else img

/-- Apply `flipV` when the flag is set. -/
def condFlipV (flag : Bool) (img : Img) : Img := if flag then flipV img else img

/-- Apply the 90-degree-clockwise point rotation `(u, v) ↦ (-v, u)`
(y axis down) `k` times to a doubled-center-offset coordinate pair. -/
def rotCW2 : ℕ → ℤ × ℤ → ℤ × ℤ
  | 0, p => p
  | k + 1, p => rotCW2 k (-p.2, p.1)

/-- The canvas composite of `drawFrame` in `InteractivePreview.tsx` (lines
235-262), evaluated exactly.  The source sets the canvas to the rotated
dimensions (`rotate90 % 2` swaps width and height), then runs
`translate(W/2, H/2)`, `rotate(-rotate90 * π/2)`,
`scale(flipH ? -1 : 1, flipV ? -1 : 1)` and draws the image centred at
`(-w/2, -h/2)`.  A drawn pixel `(x, y)` therefore lands at device position
`T(R(S(c)))` where `c` is its centre offset; because the angle is a
multiple of `π/2` the map is exact on the half-integer lattice, and this
definition inverts it per output pixel.  Coordinates are doubled
(`2X - W + 1` is twice the centre offset of output pixel `X`) to stay in
`ℤ`.  `rotate(θ)` with positive `θ` is clockwise in canvas coordinates, so
the applied rotation is `rotCW2` inverted, i.e. the inverse map applies
`rotCW2 rotate90` to the device offset.  Output pixels not covered by the
drawn image keep the cleared value `0`. -/
def drawFrame (rotate90 : ℕ) (flipHorizontal flipVertical : Bool)
    (img : Img) : Img :=
  let w := img.w
  let h := img.h
  let W := if rotate90 % 2 = 1 then h else w
  let H := if rotate90 % 2 = 1 then w else h
  { w := W
    h := H
    pix := fun X Y =>
      if X < W ∧ Y < H then
        let du2 : ℤ := 2 * X - W + 1
        let dv2 : ℤ := 2 * Y - H + 1
        let s := rotCW2 (rotate90 % 4) (du2, dv2)
        let u2 : ℤ := if flipHorizontal then -s.1 else s.1
        let v2 : ℤ := if flipVertical then -s.2 else s.2
        let x : ℤ := (u2 + w - 1) / 2
        let y : ℤ := (v2 + h - 1) / 2
        if 0 ≤ x ∧ x < w ∧ 0 ≤ y ∧ y < h ∧
            2 * x = u2 + w - 1 ∧ 2 * y = v2 + h - 1 then
          img.pix x.toNat y.toNat
        else 0
      else 0 }

/-- The transform pipeline exactly as the specification words it (claim of
section 4.4): first rotate by `rotate90 × 90°` clockwise, then flip
horizontally, then flip vertically. -/
def claimedRender (rotate90 : ℕ) (fh fv : Bool) (img : Img) : Img :=
  condFlipV fv (condFlipH fh (rotateCW^[rotate90] img))

/-- The specification's pipeline with only the rotation direction repaired
(counterclockwise instead of clockwise), order unchanged: rotate first,
then flip.  Used to show that fixing the direction alone does not match
the code. -/
def directionFixedRender (rotate90 : ℕ) (fh fv : Bool) (img : Img) : Img :=
  condFlipV fv (condFlipH fh (rotateCCW^[rotate90] img))

/-- The composite the canvas actually performs, as frame operations: flips
first (they commute with each other), then the counterclockwise rotation,
`rotate90` taken modulo its period 4. -/
def actualRender (rotate90 : ℕ) (fh fv : Bool) (img : Img) : Img :=
  rotateCCW^[rotate90 % 4] (condFlipV fv (condFlipH fh img))

/-- A concrete two-pixel-wide, one-pixel-tall test frame with distinct
pixel values 0 (left) and 1 (right). -/
def egImg : Img := ⟨2, 1, fun x _ => x⟩

/-- An RGB raster produced by the colormap stage. -/
structure RGBImg where
  w : ℕ
  h : ℕ
  pix : ℕ → ℕ → ℕ × ℕ × ℕ

/-- Two RGB images agree: same dimensions and the same channel values over
the whole domain. -/
def RGBImg.Eqv (a b : RGBImg) : Prop :=
  a.w = b.w ∧ a.h = b.h ∧ ∀ x < a.w, ∀ y < a.h, a.pix x y = b.pix x y

instance (a b : RGBImg) : Decidable (RGBImg.Eqv a b) :=
  inferInstanceAs (Decidable (_ ∧ _ ∧ ∀ x < a.w, ∀ y < a.h, a.pix x y = b.pix x y))

/-- The per-pixel effect of the client `applyColormap` on the canvas after
`drawFrame`: the canvas holds the grayscale value `v` replicated in R, G
and B, `applyColormap` reads the R channel, and either leaves the pixel
(`gray`, or a missing/empty LUT) or stores the looked-up triple through
the clamping buffer. -/
def applyColormapPix (colormap : Colormap) (v : ℕ) : ℕ × ℕ × ℕ :=
  if colormap = .gray then (v, v, v)
  else
    let lut := COLORMAPS colormap
    if lut.length = 0 then (v, v, v)
    else
      let c := lutEntry lut v
      (clamp8 c.1, clamp8 c.2.1, clamp8 c.2.2)

/-- The full client-side preview render of one displayed frame: select the
source frame through `filteredIndices`/`getEffectiveIndex`, draw it with
the canvas transform, then apply the colormap per pixel. -/
def clientPreviewFrame (frames : List Img) (rotate90 : ℕ)
    (fh fv reverseSlices : Bool) (colormap : Colormap)
    (sliceStart sliceEnd displayIdx : ℕ) : RGBImg :=
  let filtered := filteredIndices frames.length sliceStart sliceEnd
  let img := frames.getD (getEffectiveIndex reverseSlices filtered displayIdx) emptyImg
  let drawn := drawFrame rotate90 fh fv img
  ⟨drawn.w, drawn.h, fun x y => applyColormapPix colormap (drawn.pix x y)⟩

/-- Modelled from the spec: the server-side frame selection of the final
encoder (`backend/utils/gif_generator.py`, not present under `src/`),
section 4.6: `startIndex = floor(total × sliceStart/100)`,
`endIndex = max(startIndex+1, floor(total × sliceEnd/100))`, clipped to
`[0, total]`; the selection is the consecutive indices in between. -/
def serverFilteredIndices (total sliceStart sliceEnd : ℕ) : List ℕ :=
  let startIdx := total * sliceStart / 100
  let endIdx := max (startIdx + 1) (total * sliceEnd / 100)
  List.range' startIdx (min endIdx total - startIdx)

/-- Modelled from the spec: server-side slice reversal (section 4.4),
applied after slice-range filtering: logical index `i` maps to physical
index `N - 1 - i` of the filtered subset. -/
def serverEffectiveIndex (reverseSlices : Bool) (selected : List ℕ)
    (i : ℕ) : ℕ :=
  selected.getD (if reverseSlices then selected.length - 1 - i else i) 0

/-- Modelled from the spec: the server-side geometric transform stage
(`backend/utils/image_ops.py`, not present under `src/`), section 4.4:
rotate by `rotate90 × 90°` clockwise, then flip horizontal, then flip
vertical.  `rotate90` is reduced modulo its period 4 (the request bounds
it to 0..3). -/
def serverTransform (rotate90 : ℕ) (fh fv : Bool) (img : Img) : Img :=
  condFlipV fv (condFlipH fh (rotateCW^[rotate90 % 4] img))

/-- Modelled from the spec: the server-side colormap stage (section 4.5):
`gray` passes the value through on all three channels, every other name
applies the precomputed 256-entry table computed from the same
mathematical definition as the client (the `COLORMAPS` generators above),
the result stored into 8-bit output channels. -/
def serverColormapPix (colormap : Colormap) (v : ℕ) : ℕ × ℕ × ℕ :=
  if colormap = .gray then (v, v, v)
  else
    let c := lutEntry (COLORMAPS colormap) v
    (clamp8 c.1, clamp8 c.2.1, clamp8 c.2.2)

/-- Modelled from the spec: the server-side final encoder's rendering of the
frame at logical index `displayIdx` (sections 4.4-4.6): select via the
resolved slice range and reversal, apply the transform stage, then the
colormap stage. -/
def serverFinalFrame (frames : List Img) (rotate90 : ℕ)
    (fh fv reverseSlices : Bool) (colormap : Colormap)
    (sliceStart sliceEnd displayIdx : ℕ) : RGBImg :=
  let selected := serverFilteredIndices frames.length sliceStart sliceEnd
  let img := frames.getD (serverEffectiveIndex reverseSlices selected displayIdx) emptyImg
  let transformed := serverTransform rotate90 fh fv img
  ⟨transformed.w, transformed.h,
   fun x y => serverColormapPix colormap (transformed.pix x y)⟩

/-! Theorems.  Each claim of the specification audit is settled by exactly
one theorem below; shared facts live in helper lemmas. -/

set_option maxRecDepth 40000

theorem collectIndices_eq_range' (fuel : ℕ) : ∀ (endIdx total i : ℕ),
    min endIdx total ≤ i + fuel →
    collectIndices fuel endIdx total i = List.range' i (min endIdx total - i) := by
  induction fuel with
  | zero =>
    intro endIdx total i h
    have h0 : min endIdx total - i = 0 := by omega
    simp [collectIndices, h0]
  | succ n ih =>
    intro endIdx total i h
    rw [collectIndices]
    split
    · next hlt =>
      have hrange : min endIdx total - i = (min endIdx total - (i + 1)) + 1 := by
        omega
      rw [hrange, List.range'_succ, ih endIdx total (i + 1) (by omega)]
    · next hge =>
      have h0 : min endIdx total - i = 0 := by omega
      simp [h0]

theorem filteredIndices_eq_range' (total s e : ℕ) :
    filteredIndices total s e =
      List.range' (total * s / 100)
        (min (max (total * s / 100 + 1) (total * e / 100)) total
          - total * s / 100) := by
  unfold filteredIndices
  exact collectIndices_eq_range' total _ total _ (by omega)

theorem startIdx_lt_total (total s : ℕ) (htot : 1 ≤ total) (hs : s ≤ 99) :
    total * s / 100 < total := by
  have h1 : total * s ≤ total * 99 := Nat.mul_le_mul_left _ hs
  have h2 : total * s / 100 ≤ total * 99 / 100 := Nat.div_le_div_right h1
  have h3 : total * 99 / 100 < total := by
    rw [Nat.div_lt_iff_lt_mul (by norm_num)]
    exact mul_lt_mul_of_pos_left (by norm_num) (by omega)
  omega

/-- C1: for a frame sequence of length `total ≥ 1` and percentages
`0 ≤ sliceStart < sliceEnd ≤ 100`, `filteredIndices` is exactly the
consecutive integers from `startIndex = ⌊total·sliceStart/100⌋` up to
(exclusive) `endIndex = max (startIndex+1) ⌊total·sliceEnd/100⌋` clipped
to `total`, and this selection is non-empty and strictly increasing. -/
theorem filteredIndices_spec (total s e : ℕ) (htot : 1 ≤ total) (hse : s < e)
    (he : e ≤ 100) :
    filteredIndices total s e =
      List.range' (total * s / 100)
        (min (max (total * s / 100 + 1) (total * e / 100)) total
          - total * s / 100) ∧
    filteredIndices total s e ≠ [] ∧
    (filteredIndices total s e).Pairwise (· < ·) := by
  have hlt := startIdx_lt_total total s htot (by omega)
  refine ⟨filteredIndices_eq_range' total s e, ?_, ?_⟩
  · rw [filteredIndices_eq_range' total s e, Ne, List.range'_eq_nil]
    omega
  · rw [filteredIndices_eq_range' total s e]
    exact List.pairwise_lt_range' _ _

theorem filteredIndices_spec_witness :
    (1 : ℕ) ≤ 10 ∧ (20 : ℕ) < 80 ∧ (80 : ℕ) ≤ 100 ∧
    (filteredIndices 10 20 80 =
      List.range' (10 * 20 / 100)
        (min (max (10 * 20 / 100 + 1) (10 * 80 / 100)) 10 - 10 * 20 / 100) ∧
     filteredIndices 10 20 80 ≠ [] ∧
     (filteredIndices 10 20 80).Pairwise (· < ·)) :=
  ⟨by decide, by decide, by decide,
   filteredIndices_spec 10 20 80 (by decide) (by decide) (by decide)⟩

theorem getEffectiveIndex_eq_getD (filtered : List ℕ) (i : ℕ)
    (hi : i < filtered.length) :
    getEffectiveIndex true filtered (i : ℤ) =
      filtered.getD (filtered.length - 1 - i) 0 ∧
    getEffectiveIndex false filtered (i : ℤ) = filtered.getD i 0 := by
  constructor
  · have hmin : (0 ⊔ ((filtered.length : ℤ) - 1 - (i : ℤ))) ⊓
        ((filtered.length : ℤ) - 1) = (filtered.length : ℤ) - 1 - (i : ℤ) := by
      omega
    have htn : ((filtered.length : ℤ) - 1 - (i : ℤ)).toNat
        = filtered.length - 1 - i := by omega
    simp only [getEffectiveIndex, listAt, if_true, hmin,
      if_pos (show (0:ℤ) ≤ (filtered.length : ℤ) - 1 - (i : ℤ) by omega), htn,
      List.get?_eq_getElem?, List.getD_eq_getElem?_getD]
  · have hmin : (0 ⊔ (i : ℤ)) ⊓ ((filtered.length : ℤ) - 1) = (i : ℤ) := by
      omega
    simp only [getEffectiveIndex, listAt, Bool.false_eq_true, if_false, hmin,
      if_pos (show (0:ℤ) ≤ (i : ℤ) by omega), Int.toNat_natCast,
      List.get?_eq_getElem?, List.getD_eq_getElem?_getD]

/-- C2: with a non-empty filtered index set of length `M` and a display
index `i < M`, the displayed frame is `filteredIndices[M-1-i]` when
`reverseSlices` is on and `filteredIndices[i]` when off; concretely, a
10-slice volume with `sliceStart = 20`, `sliceEnd = 80` selects physical
slices 2..7, and reversal displays them in the order 7,6,5,4,3,2. -/
theorem getEffectiveIndex_spec :
    (∀ (filtered : List ℕ) (i : ℕ), i < filtered.length →
      getEffectiveIndex true filtered (i : ℤ) =
        filtered.getD (filtered.length - 1 - i) 0 ∧
      getEffectiveIndex false filtered (i : ℤ) = filtered.getD i 0) ∧
    filteredIndices 10 20 80 = [2, 3, 4, 5, 6, 7] ∧
    (List.range 6).map
        (fun (i : ℕ) => getEffectiveIndex true (filteredIndices 10 20 80) (i : ℤ)) =
      [7, 6, 5, 4, 3, 2] :=
  ⟨getEffectiveIndex_eq_getD, by decide, by decide⟩

theorem getEffectiveIndex_spec_witness :
    (0 : ℕ) < 6 ∧
    getEffectiveIndex true [2, 3, 4, 5, 6, 7] ((0 : ℕ) : ℤ) =
      [2, 3, 4, 5, 6, 7].getD (6 - 1 - 0) 0 :=
  ⟨by decide, (getEffectiveIndex_spec.1 [2, 3, 4, 5, 6, 7] 0 (by decide)).1⟩

/-- C7: the reversal mapping `i ↦ M - 1 - i` is an involution on display
order: displaying, with reversal enabled, the already-reversed display
index recovers the unreversed frame order. -/
theorem reverseSlices_involution (filtered : List ℕ) :
    (List.range filtered.length).map
        (fun (i : ℕ) => getEffectiveIndex true filtered
          ((filtered.length : ℤ) - 1 - (i : ℤ))) =
      (List.range filtered.length).map
        (fun (i : ℕ) => getEffectiveIndex false filtered (i : ℤ)) := by
  refine List.map_congr_left ?_
  intro i hi
  rw [List.mem_range] at hi
  have hcast : (filtered.length : ℤ) - 1 - (i : ℤ)
      = ((filtered.length - 1 - i : ℕ) : ℤ) := by omega
  rw [hcast,
    (getEffectiveIndex_eq_getD filtered (filtered.length - 1 - i) (by omega)).1,
    (getEffectiveIndex_eq_getD filtered i hi).2]
  congr 1
  omega

/-- C4: for the `gray` colormap the colormap stage leaves the canvas pixel
data unchanged, so an input whose channels replicate the windowed
grayscale value stays exactly that replicated grayscale data. -/
theorem applyColormap_gray_spec (data : List RGBA)
    (hgray : ∀ p ∈ data, p.r = p.g ∧ p.g = p.b) :
    applyColormap .gray data = data ∧
    ∀ p ∈ applyColormap .gray data, p.r = p.g ∧ p.g = p.b := by
  constructor
  · simp [applyColormap]
  · simpa [applyColormap] using hgray

theorem applyColormap_gray_spec_witness :
    (∀ p ∈ [RGBA.mk 5 5 5 255], p.r = p.g ∧ p.g = p.b) ∧
    (applyColormap .gray [RGBA.mk 5 5 5 255] = [RGBA.mk 5 5 5 255] ∧
     ∀ p ∈ applyColormap .gray [RGBA.mk 5 5 5 255], p.r = p.g ∧ p.g = p.b) :=
  ⟨by decide, applyColormap_gray_spec [RGBA.mk 5 5 5 255] (by decide)⟩

/-- C5 counterexample: the plasma table entry at index 191 has red
component 280, so not every component of every non-gray table lies in
`0..255`. -/
theorem plasmaLUT_counterexample :
    (generatePlasmaLUT.getD 191 []).getD 0 0 = 280 ∧
    ¬ (∀ rgb ∈ generatePlasmaLUT, ∀ c ∈ rgb, 0 ≤ c ∧ c ≤ 255) := by
  constructor
  · decide
  · decide

/-- C5 amended: every non-gray colormap is a fixed lookup table of exactly
256 RGB triples of integers; all components of viridis, hot, bone and jet
lie in `0..255`, and so do plasma's green and blue components, but
plasma's red component only lies in `0..280` and exceeds 255 on part of
the range (it is clamped to 255 only later, when stored through the
canvas's `Uint8ClampedArray`). -/
theorem colormapLUT_spec :
    (generateViridisLUT.length = 256 ∧ generatePlasmaLUT.length = 256 ∧
     generateHotLUT.length = 256 ∧ generateBoneLUT.length = 256 ∧
     generateJetLUT.length = 256) ∧
    (∀ rgb ∈ generateViridisLUT, rgb.length = 3 ∧ ∀ c ∈ rgb, 0 ≤ c ∧ c ≤ 255) ∧
    (∀ rgb ∈ generateHotLUT, rgb.length = 3 ∧ ∀ c ∈ rgb, 0 ≤ c ∧ c ≤ 255) ∧
    (∀ rgb ∈ generateBoneLUT, rgb.length = 3 ∧ ∀ c ∈ rgb, 0 ≤ c ∧ c ≤ 255) ∧
    (∀ rgb ∈ generateJetLUT, rgb.length = 3 ∧ ∀ c ∈ rgb, 0 ≤ c ∧ c ≤ 255) ∧
    (∀ rgb ∈ generatePlasmaLUT, rgb.length = 3 ∧
      rgb.getD 1 0 ≤ 255 ∧ rgb.getD 2 0 ≤ 255 ∧
      ∀ c ∈ rgb, 0 ≤ c ∧ c ≤ 280) := by
  refine ⟨by decide, by decide, by decide, by decide, by decide, by decide⟩

/-- C9: one animation tick advances the local slice by exactly one, modulo
the filtered frame count, precisely when the elapsed time reaches
`1000/fps` milliseconds, recording the tick's timestamp; otherwise the
state is unchanged, and the slice index always stays in
`[0, filteredFrameCount)`. -/
theorem animate_spec (fps N : ℕ) (st : AnimState) (ts : ℚ) (hN : 0 < N)
    (hslice : st.localSlice < N) :
    (ts - st.lastFrameTime ≥ 1000 / fps →
      (animate fps N st ts).localSlice = (st.localSlice + 1) % N ∧
      (animate fps N st ts).lastFrameTime = ts) ∧
    (ts - st.lastFrameTime < 1000 / fps → animate fps N st ts = st) ∧
    (animate fps N st ts).localSlice < N := by
  simp only [animate]
  by_cases hge : ts - st.lastFrameTime ≥ 1000 / (fps : ℚ)
  · rw [if_pos hge]
    exact ⟨fun _ => ⟨rfl, rfl⟩, fun hlt => absurd hge (not_le.mpr hlt),
      Nat.mod_lt _ hN⟩
  · rw [if_neg hge]
    exact ⟨fun h => absurd h hge, fun _ => rfl, hslice⟩

theorem animate_spec_witness :
    (0 : ℕ) < 3 ∧ (1 : ℕ) < 3 ∧
    ((100 : ℚ) - 0 ≥ 1000 / 10 ∧
     (animate 10 3 ⟨1, 0⟩ 100).localSlice = (1 + 1) % 3) :=
  ⟨by norm_num, by norm_num,
   by norm_num,
   ((animate_spec 10 3 ⟨1, 0⟩ 100 (by norm_num) (by norm_num)).1
     (by norm_num)).1⟩

/-- C10: for slider inputs `0 ≤ start ≤ 95` and `5 ≤ end ≤ 100`,
`updateSliceRange` stores a slice range with a gap of at least 5 inside
`[0, 100]`, in particular never degenerate (`sliceStart < sliceEnd`). -/
theorem updateSliceRange_spec (prev start endVal : ℤ) (h1 : 0 ≤ start)
    (h2 : start ≤ 95) (h3 : 5 ≤ endVal) (h4 : endVal ≤ 100) :
    5 ≤ (updateSliceRange prev start endVal).2
      - (updateSliceRange prev start endVal).1 ∧
    0 ≤ (updateSliceRange prev start endVal).1 ∧
    (updateSliceRange prev start endVal).2 ≤ 100 ∧
    (updateSliceRange prev start endVal).1
      < (updateSliceRange prev start endVal).2 := by
  unfold updateSliceRange
  split
  · split
    · dsimp only
      omega
    · dsimp only
      omega
  · dsimp only
    omega

theorem Img.Eqv.rfl' (a : Img) : Img.Eqv a a :=
  ⟨rfl, rfl, fun _ _ _ _ => rfl⟩

theorem Img.Eqv.symm' {a b : Img} (h : Img.Eqv a b) : Img.Eqv b a :=
  ⟨h.1.symm, h.2.1.symm, fun x hx y hy =>
    (h.2.2 x (h.1 ▸ hx) y (h.2.1 ▸ hy)).symm⟩

theorem Img.Eqv.trans' {a b c : Img} (h1 : Img.Eqv a b) (h2 : Img.Eqv b c) :
    Img.Eqv a c :=
  ⟨h1.1.trans h2.1, h1.2.1.trans h2.2.1, fun x hx y hy =>
    (h1.2.2 x hx y hy).trans (h2.2.2 x (h1.1 ▸ hx) y (h1.2.1 ▸ hy))⟩

theorem rotateCCW_congr {a b : Img} (h : Img.Eqv a b) :
    Img.Eqv (rotateCCW a) (rotateCCW b) := by
  obtain ⟨hw, hh, hp⟩ := h
  refine ⟨by simp [rotateCCW, hh], by simp [rotateCCW, hw], ?_⟩
  intro x hx y hy
  simp only [rotateCCW] at hx hy ⊢
  rw [← hw, ← hh]
  split_ifs with hg
  · exact hp _ (by omega) _ (by omega)
  · rfl

set_option maxHeartbeats 1000000

theorem drawFrame_mod (k : ℕ) (fh fv : Bool) (img : Img) :
    drawFrame k fh fv img = drawFrame (k % 4) fh fv img := by
  unfold drawFrame
  rw [show k % 4 % 2 = k % 2 from by omega, show k % 4 % 4 = k % 4 from by omega]

theorem actualRender_mod (k : ℕ) (fh fv : Bool) (img : Img) :
    actualRender k fh fv img = actualRender (k % 4) fh fv img := by
  unfold actualRender
  rw [show k % 4 % 4 = k % 4 from by omega]

theorem drawFrame_closed (k : ℕ) (fh fv : Bool) (img : Img) :
    Img.Eqv (drawFrame k fh fv img) (actualRender k fh fv img) := by
  rw [drawFrame_mod, actualRender_mod]
  have h4 : k % 4 = 0 ∨ k % 4 = 1 ∨ k % 4 = 2 ∨ k % 4 = 3 := by omega
  rcases h4 with hr | hr | hr | hr <;> rw [hr] <;> cases fh <;> cases fv
  all_goals refine ⟨rfl, rfl, ?_⟩
  all_goals intro x hx y hy
  all_goals simp only [drawFrame, actualRender, condFlipH, condFlipV, rotCW2]
    at hx hy ⊢
  all_goals try norm_num at hx hy ⊢
  all_goals try simp only [rotateCCW, flipH, flipV] at hx hy ⊢
  all_goals try norm_num at hx hy ⊢
  all_goals split_ifs <;> first | (congr 1 <;> omega) | (exfalso; omega) | omega

theorem rotateCCW_four_cycle (img : Img) :
    Img.Eqv (rotateCCW (rotateCCW (rotateCCW (rotateCCW img)))) img := by
  refine ⟨rfl, rfl, ?_⟩
  intro x hx y hy
  simp only [rotateCCW] at hx hy ⊢
  split_ifs <;> first | (congr 1 <;> omega) | (exfalso; omega) | omega

/-- C8: the single 90-degree rotation step of the renderer is cyclic of
order four: drawing with `rotate90 = 1` four times in sequence produces
pixel data identical to a single draw with `rotate90 = 0` (the
identity draw). -/
theorem rotate_four_cycle (img : Img) :
    Img.Eqv ((drawFrame 1 false false)^[4] img) (drawFrame 0 false false img) := by
  have h1 : ∀ z : Img, Img.Eqv (drawFrame 1 false false z) (rotateCCW z) :=
    fun z => drawFrame_closed 1 false false z
  have hiter : (drawFrame 1 false false)^[4] img
      = drawFrame 1 false false (drawFrame 1 false false
          (drawFrame 1 false false (drawFrame 1 false false img))) := rfl
  have e1 := h1 img
  have e2 := (h1 _).trans' (rotateCCW_congr e1)
  have e3 := (h1 _).trans' (rotateCCW_congr e2)
  have e4 := (h1 _).trans' (rotateCCW_congr e3)
  have h0 : Img.Eqv img (drawFrame 0 false false img) :=
    (drawFrame_closed 0 false false img).symm'
  rw [hiter]
  exact (e4.trans' (rotateCCW_four_cycle img)).trans' h0

/-- C3 counterexample: on a 2-wide, 1-tall frame with pixels `0 1`, the
canvas render with `rotate90 = 1` (no flips) differs from
rotate-clockwise-then-flip, and it also differs from
rotate-counterclockwise-then-flip when one flip is enabled, so neither
rotate-first order matches the code. -/
theorem drawFrame_order_counterexample :
    ¬ Img.Eqv (drawFrame 1 false false egImg) (claimedRender 1 false false egImg) ∧
    ¬ Img.Eqv (drawFrame 1 true false egImg)
        (directionFixedRender 1 true false egImg) := by
  constructor
  · decide
  · decide

/-- C3 amended: the rendered frame equals the composition in this fixed
order: first flip horizontally, then flip vertically (the two flips
commute), then rotate the frame counterclockwise by
`(rotate90 mod 4) × 90°`. -/
theorem drawFrame_transform_spec (rotate90 : ℕ) (fh fv : Bool) (img : Img) :
    Img.Eqv (drawFrame rotate90 fh fv img)
      (rotateCCW^[rotate90 % 4] (condFlipV fv (condFlipH fh img))) :=
  drawFrame_closed rotate90 fh fv img

theorem filteredIndices_eq_server (total s e : ℕ) :
    filteredIndices total s e = serverFilteredIndices total s e := by
  rw [filteredIndices_eq_range']
  rfl

theorem serverTransform_mod (k : ℕ) (fh fv : Bool) (img : Img) :
    serverTransform k fh fv img = serverTransform (k % 4) fh fv img := by
  unfold serverTransform
  rw [show k % 4 % 4 = k % 4 from by omega]

theorem actualRender_eq_serverTransform (k : ℕ) (fh fv : Bool) (img : Img)
    (hcond : k % 2 = 0 ∨ fh ≠ fv) :
    Img.Eqv (actualRender k fh fv img) (serverTransform k fh fv img) := by
  rw [actualRender_mod, serverTransform_mod]
  have h2 : k % 2 = k % 4 % 2 := by omega
  have h4 : k % 4 = 0 ∨ k % 4 = 1 ∨ k % 4 = 2 ∨ k % 4 = 3 := by omega
  rcases h4 with hr | hr | hr | hr <;> rw [hr] <;> cases fh <;> cases fv
  all_goals try (rw [h2, hr] at hcond; simp at hcond)
  all_goals refine ⟨rfl, rfl, ?_⟩
  all_goals intro x hx y hy
  all_goals simp only [actualRender, serverTransform, condFlipH, condFlipV]
    at hx hy ⊢
  all_goals try norm_num at hx hy ⊢
  all_goals try simp only [rotateCCW, rotateCW, flipH, flipV] at hx hy ⊢
  all_goals try norm_num at hx hy ⊢
  all_goals split_ifs <;> first | (congr 1 <;> omega) | (exfalso; omega) | omega

theorem generateViridisLUT_length : generateViridisLUT.length = 256 := by
  unfold generateViridisLUT
  rw [List.length_map, List.length_range]

theorem generatePlasmaLUT_length : generatePlasmaLUT.length = 256 := by
  unfold generatePlasmaLUT
  rw [List.length_map, List.length_range]

theorem generateHotLUT_length : generateHotLUT.length = 256 := by
  unfold generateHotLUT
  rw [List.length_map, List.length_range]

theorem generateBoneLUT_length : generateBoneLUT.length = 256 := by
  unfold generateBoneLUT
  rw [List.length_map, List.length_range]

theorem generateJetLUT_length : generateJetLUT.length = 256 := by
  unfold generateJetLUT
  rw [List.length_map, List.length_range]

theorem applyColormapPix_eq_server (cm : Colormap) (v : ℕ) :
    applyColormapPix cm v = serverColormapPix cm v := by
  cases cm <;>
    simp [applyColormapPix, serverColormapPix, COLORMAPS,
      generateViridisLUT_length, generatePlasmaLUT_length, generateHotLUT_length,
      generateBoneLUT_length, generateJetLUT_length]

/-- C6 counterexample: for a 2-wide, 1-tall frame with pixels `0 1`, frame
index 0, `rotate90 = 1` and no flips, the client preview differs from the
spec-modelled server encoder (the two sides rotate in opposite
directions). -/
theorem preview_final_counterexample :
    ¬ RGBImg.Eqv
      (clientPreviewFrame [egImg] 1 false false false .gray 0 100 0)
      (serverFinalFrame [egImg] 1 false false false .gray 0 100 0) := by
  decide

/-- C6 amended: for every fixed frame index and fixed settings in which
`rotate90` is even or exactly one of the two flips is enabled, the
client-side preview renderer produces pixel values equal to those of the
spec-modelled server-side final encoder for that frame index (ignoring
resolution scaling); for odd rotations with zero or two flips the two
sides differ. -/
theorem preview_final_equiv (frames : List Img) (rotate90 : ℕ)
    (fh fv rev : Bool) (colormap : Colormap) (s e i : ℕ)
    (hcond : rotate90 % 2 = 0 ∨ fh ≠ fv)
    (hi : i < (filteredIndices frames.length s e).length) :
    RGBImg.Eqv (clientPreviewFrame frames rotate90 fh fv rev colormap s e i)
      (serverFinalFrame frames rotate90 fh fv rev colormap s e i) := by
  have hsel : filteredIndices frames.length s e
      = serverFilteredIndices frames.length s e :=
    filteredIndices_eq_server frames.length s e
  have hidx : getEffectiveIndex rev (filteredIndices frames.length s e) (i : ℤ)
      = serverEffectiveIndex rev (serverFilteredIndices frames.length s e) i := by
    rw [← hsel]
    cases rev
    · rw [(getEffectiveIndex_eq_getD _ i hi).2]
      simp [serverEffectiveIndex]
    · rw [(getEffectiveIndex_eq_getD _ i hi).1]
      simp [serverEffectiveIndex]
  have htrans : Img.Eqv
      (drawFrame rotate90 fh fv
        (frames.getD
          (getEffectiveIndex rev (filteredIndices frames.length s e) (i : ℤ))
          emptyImg))
      (serverTransform rotate90 fh fv
        (frames.getD
          (serverEffectiveIndex rev (serverFilteredIndices frames.length s e) i)
          emptyImg)) := by
    rw [← hidx]
    exact (drawFrame_closed rotate90 fh fv _).trans'
      (actualRender_eq_serverTransform rotate90 fh fv _ hcond)
  obtain ⟨hw, hh, hp⟩ := htrans
  refine ⟨hw, hh, ?_⟩
  intro x hx y hy
  simp only [clientPreviewFrame, serverFinalFrame] at hx hy ⊢
  rw [applyColormapPix_eq_server, hp x hx y hy]

theorem preview_final_equiv_witness :
    ((0 : ℕ) % 2 = 0 ∨ (false ≠ false)) ∧
    0 < (filteredIndices [egImg].length 0 100).length ∧
    RGBImg.Eqv (clientPreviewFrame [egImg] 0 false false false .gray 0 100 0)
      (serverFinalFrame [egImg] 0 false false false .gray 0 100 0) :=
  ⟨Or.inl rfl, by decide,
   preview_final_equiv [egImg] 0 false false false .gray 0 100 0 (Or.inl rfl)
     (by decide)⟩

theorem updateSliceRange_spec_witness :
    (0 : ℤ) ≤ 0 ∧ (0 : ℤ) ≤ 95 ∧ (5 : ℤ) ≤ 100 ∧ (100 : ℤ) ≤ 100 ∧
    (5 ≤ (updateSliceRange 0 0 100).2 - (updateSliceRange 0 0 100).1 ∧
     0 ≤ (updateSliceRange 0 0 100).1 ∧
     (updateSliceRange 0 0 100).2 ≤ 100 ∧
     (updateSliceRange 0 0 100).1 < (updateSliceRange 0 0 100).2) :=
  ⟨by decide, by decide, by decide, by decide,
   updateSliceRange_spec 0 0 100 (by decide) (by decide) (by decide) (by decide)⟩

end N2G
